import Mathlib

/-!
Shallow embedding of the two algorithmic routines of `rl/util.py`
(`GeneralizedAdvantageEstimator` and `state_windowing` with its inner
helper `naive_pad`), together with theorems settling the specification
claims about them.

Observations are modelled as elements of a type `α` carrying a zero
element (an observation may itself be a vector; numpy's scalar `0`
assignment zero-fills a whole row, which corresponds to the designated
zero of `α`).  Sequences (numpy arrays along axis 0) are Lean lists.
Scalars are rationals.
-/

namespace KerasRL

/-- `np.roll(x, shift, axis=0)` restricted to one axis: entry `j` of the
result is `x[(j - shift) mod len(x)]`.  numpy's roll wraps modulo the
length, also for `shift >= len(x)`. -/
def npRoll {α : Type} [Zero α] (x : List α) (shift : Nat) : List α :=
  (List.range x.length).map
    (fun (j : Nat) => x.getD ((((j : Int) - (shift : Int)) % (x.length : Int)).toNat) 0)

/-- `y[0:shift, ] = 0`: zero-fill the rows with index `< shift`.  The
slice clamps to the array length, so for `shift >= len(y)` every row is
zero-filled. -/
def zeroFirstRows {α : Type} [Zero α] (y : List α) (shift : Nat) : List α :=
  (List.range y.length).map (fun j => if j < shift then (0 : α) else y.getD j 0)

/-- The inner helper `naive_pad` of `state_windowing`:
`y = np.roll(x, shift, axis); y[0:shift, ] = 0; return y`. -/
def naive_pad {α : Type} [Zero α] (x : List α) (shift : Nat) : List α :=
  zeroFirstRows (npRoll x shift) shift

/-- `state_windowing(states, window_len)`:
`np.stack([naive_pad(states, i, axis=0) for i in reversed(range(window_len))], axis=1)`.
Stacking along axis 1 means output entry `t` is the list of the `t`-th rows
of the padded copies, in comprehension order (shift `window_len-1` first,
shift `0` last). -/
def state_windowing {α : Type} [Zero α] (states : List α) (window_len : Nat) :
    List (List α) :=
  let padded := ((List.range window_len).reverse).map (fun i => naive_pad states i)
  (List.range states.length).map (fun t => padded.map (fun y => y.getD t 0))

/-- The TD residual vector `delta = reward + gamma * value[1:, ] - value[:-1, ]`,
translated elementwise: pairing `value` with its tail yields the pairs
`(value[i], value[i+1])`. -/
def tdDelta (reward value : List ℚ) (gamma : ℚ) : List ℚ :=
  List.zipWith (fun re p => re + gamma * p.2 - p.1) reward (value.zip value.tail)

/-- The sequence of values appended by the Python loop: element `i` is what
`result[-1] * r + delta[n-1-i]` evaluates to at iteration `i`, with `g`
standing for `fun i => delta[n-1-i]` and the initial `result[-1]` being `0`. -/
def gaeAcc (g : Nat → ℚ) (r : ℚ) : Nat → ℚ
  | 0 => 0 * r + g 0
  | i + 1 => gaeAcc g r i * r + g (i + 1)

/-- The loop of `GeneralizedAdvantageEstimator`:
`result = [0]`, then `for i in range(0, n): result.append(result[-1] * r + delta[n-1-i])`.
`result[-1]` is the last entry of the (always non-empty) running list. -/
def gaeLoop (delta : List ℚ) (r : ℚ) (n : Nat) : List ℚ :=
  (List.range n).foldl
    (fun result i => result ++ [result.getLastD 0 * r + delta.getD (n - 1 - i) 0]) [0]

/-- `GeneralizedAdvantageEstimator(critic, state_batch, reward, gamma, lamb)`.
The critic is an opaque batched evaluator `List S → List ℚ`
(`critic.predict_on_batch(state_batch).flatten()`).  The assertion
`reward.shape == (n,)` with the Python integer `n = len(state_batch) - 1`
is modelled as a guard returning `none` (raised `AssertionError`); the
integer subtraction is taken in `Int` as in Python.  On success the result
is `result[:0:-1]`, i.e. the reversed `result` without the original
leading `0`. -/
def GeneralizedAdvantageEstimator {S : Type} (critic : List S → List ℚ)
    (state_batch : List S) (reward : List ℚ) (gamma lamb : ℚ) : Option (List ℚ) :=
  if (reward.length : Int) = (state_batch.length : Int) - 1 then
    some ((gaeLoop (tdDelta reward (critic state_batch) gamma) (gamma * lamb)
      (state_batch.length - 1)).reverse.dropLast)
  else none

/-- The list returned by `GeneralizedAdvantageEstimator` when the assertion
passes, in closed form. -/
def gaeOutput (delta : List ℚ) (r : ℚ) (n : Nat) : List ℚ :=
  ((List.range n).map (gaeAcc (fun i => delta.getD (n - 1 - i) 0) r)).reverse

/-- A minimal heap of numpy arrays, addressed by cell index.  It makes the
mutation structure of `naive_pad` explicit: `np.roll` allocates a fresh
array, and the in-place assignment `y[0:shift, ] = 0` writes only to that
fresh cell, never to the input cell. -/
structure NpHeap (α : Type) where
  cells : List (List α)

/-- Read the array stored in cell `i`. -/
def heapRead {α : Type} (h : NpHeap α) (i : Nat) : List α :=
  h.cells.getD i []

/-- Overwrite the array stored in cell `i` (an in-place numpy assignment). -/
def heapWrite {α : Type} (h : NpHeap α) (i : Nat) (v : List α) : NpHeap α :=
  ⟨h.cells.set i v⟩

/-- Allocate a fresh cell holding `v`; returns the new heap and the index
of the fresh cell. -/
def heapAlloc {α : Type} (h : NpHeap α) (v : List α) : NpHeap α × Nat :=
  (⟨h.cells ++ [v]⟩, h.cells.length)

/-- Stateful rendering of `naive_pad` over the heap: `np.roll` allocates a
fresh array `y` from the contents of the input cell `xi`, then
`y[0:shift, ] = 0` writes back into the fresh cell only. -/
def naive_pad_st {α : Type} [Zero α] (h : NpHeap α) (xi : Nat) (shift : Nat) :
    NpHeap α × Nat :=
  let rolled := heapAlloc h (npRoll (heapRead h xi) shift)
  (heapWrite rolled.1 rolled.2 (zeroFirstRows (heapRead rolled.1 rolled.2) shift),
    rolled.2)

/-- Stateful rendering of `state_windowing`: run `naive_pad` on the input
cell once per shift in `reversed(range(window_len))`, collecting the
result cells.  The final `np.stack` only reads those cells and allocates
a fresh output, so it is irrelevant to the heap contents. -/
def state_windowing_st {α : Type} [Zero α] (h : NpHeap α) (xi : Nat)
    (window_len : Nat) : NpHeap α × List Nat :=
  ((List.range window_len).reverse).foldl
    (fun acc i =>
      let st := naive_pad_st acc.1 xi i
      (st.1, acc.2 ++ [st.2]))
    (h, [])

section WindowLemmas

variable {α : Type} [Zero α]

theorem length_npRoll (x : List α) (shift : Nat) :
    (npRoll x shift).length = x.length := by
  simp [npRoll]

theorem length_zeroFirstRows (y : List α) (shift : Nat) :
    (zeroFirstRows y shift).length = y.length := by
  simp [zeroFirstRows]

theorem length_naive_pad (x : List α) (shift : Nat) :
    (naive_pad x shift).length = x.length := by
  simp [naive_pad, length_zeroFirstRows, length_npRoll]

theorem getD_range_map {β : Type} (f : Nat → β) (n t : Nat) (d : β) (h : t < n) :
    ((List.range n).map f).getD t d = f t := by
  rw [List.getD_eq_getElem?_getD]
  rw [List.getElem?_map, List.getElem?_range h]
  rfl

theorem npRoll_getD (x : List α) (shift t : Nat) (h : t < x.length) :
    (npRoll x shift).getD t 0 =
      x.getD ((((t : Int) - (shift : Int)) % (x.length : Int)).toNat) 0 := by
  unfold npRoll
  exact getD_range_map _ _ _ _ h

theorem zeroFirstRows_getD (y : List α) (shift t : Nat) (h : t < y.length) :
    (zeroFirstRows y shift).getD t 0 = if t < shift then 0 else y.getD t 0 := by
  unfold zeroFirstRows
  exact getD_range_map _ _ _ _ h

/-- Pointwise characterization of `naive_pad`: row `t` is zero when
`t < shift`, and the original row `t - shift` otherwise — for every
`shift`, including `shift >= len(x)`, where all rows come out zero. -/
theorem naive_pad_getD (x : List α) (shift t : Nat) (h : t < x.length) :
    (naive_pad x shift).getD t 0 =
      if t < shift then 0 else x.getD (t - shift) 0 := by
  unfold naive_pad
  rw [zeroFirstRows_getD _ _ _ (by simpa [length_npRoll] using h)]
  by_cases hts : t < shift
  · simp [hts]
  · rw [if_neg hts, npRoll_getD x shift t h]
    have h0 : (0 : Int) ≤ (t : Int) - (shift : Int) := by omega
    have hlt : (t : Int) - (shift : Int) < (x.length : Int) := by omega
    rw [Int.emod_eq_of_lt h0 hlt]
    have hidx : ((t : Int) - (shift : Int)).toNat = t - shift := by omega
    rw [hidx, if_neg hts]

theorem state_windowing_length (states : List α) (W : Nat) :
    (state_windowing states W).length = states.length := by
  simp [state_windowing]

theorem state_windowing_entry (states : List α) (W t : Nat) (ht : t < states.length) :
    (state_windowing states W).getD t [] =
      ((List.range W).reverse).map (fun i => (naive_pad states i).getD t 0) := by
  unfold state_windowing
  rw [getD_range_map _ _ _ _ ht]
  rw [List.map_map]
  rfl

theorem state_windowing_entry_length (states : List α) (W t : Nat)
    (ht : t < states.length) :
    ((state_windowing states W).getD t []).length = W := by
  rw [state_windowing_entry _ _ _ ht]
  simp

theorem state_windowing_slice (states : List α) (W t j : Nat)
    (ht : t < states.length) (hj : j < W) :
    ((state_windowing states W).getD t []).getD j 0 =
      (naive_pad states (W - 1 - j)).getD t 0 := by
  rw [state_windowing_entry _ _ _ ht]
  rw [List.map_reverse]
  rw [List.getD_eq_getElem?_getD]
  rw [List.getElem?_reverse (by simpa using hj)]
  rw [List.length_map, List.length_range]
  rw [List.getElem?_map, List.getElem?_range (by omega)]
  rfl

/-- Full pointwise characterization of `state_windowing`, with no
hypotheses (out-of-range indices hit `getD` defaults): the `j`-th slice
of entry `t` is `states[t - (W-1-j)]` when that lag reaches a valid past
index, and zero otherwise.  In particular no entry is ever taken from an
index larger than `t`. -/
theorem windowing_getD (states : List α) (W t j : Nat) :
    ((state_windowing states W).getD t []).getD j 0 =
      if t < states.length ∧ j < W ∧ W - 1 - j ≤ t then
        states.getD (t - (W - 1 - j)) 0
      else 0 := by
  by_cases ht : t < states.length
  · by_cases hj : j < W
    · rw [state_windowing_slice _ _ _ _ ht hj]
      rw [naive_pad_getD _ _ _ ht]
      by_cases hlag : W - 1 - j ≤ t
      · rw [if_neg (by omega), if_pos ⟨ht, hj, hlag⟩]
      · rw [if_pos (by omega), if_neg (by tauto)]
    · rw [if_neg (by tauto)]
      have hlen : ((state_windowing states W).getD t []).length = W :=
        state_windowing_entry_length _ _ _ ht
      exact List.getD_eq_default _ _ (by omega)
  · rw [if_neg (by tauto)]
    have : (state_windowing states W).getD t [] = [] := by
      apply List.getD_eq_default
      rw [state_windowing_length]
      omega
    rw [this]
    rfl

end WindowLemmas

section GAELemmas

theorem tdDelta_length (reward value : List ℚ) (gamma : ℚ) :
    (tdDelta reward value gamma).length = min reward.length (value.length - 1) := by
  simp [tdDelta]

theorem tdDelta_getD (reward value : List ℚ) (gamma : ℚ) (i : Nat)
    (hi : i < reward.length) (hv : i + 1 < value.length) :
    (tdDelta reward value gamma).getD i 0 =
      reward.getD i 0 + gamma * value.getD (i + 1) 0 - value.getD i 0 := by
  have hz : i < (value.zip value.tail).length := by
    rw [List.length_zip, List.length_tail]
    omega
  have hd : i < (tdDelta reward value gamma).length := by
    rw [tdDelta_length]
    omega
  rw [List.getD_eq_getElem _ _ hd]
  rw [List.getD_eq_getElem _ _ hi]
  rw [List.getD_eq_getElem _ _ (show i < value.length by omega)]
  rw [List.getD_eq_getElem _ _ hv]
  unfold tdDelta
  rw [List.getElem_zipWith, List.getElem_zip]
  simp

theorem foldl_gaeStep (g : Nat → ℚ) (r : ℚ) (m : Nat) :
    (List.range m).foldl (fun result i => result ++ [result.getLastD 0 * r + g i]) [0]
      = 0 :: (List.range m).map (gaeAcc g r) := by
  induction m with
  | zero => rfl
  | succ k ih =>
    rw [List.range_succ, List.foldl_append, ih]
    cases k with
    | zero => simp [gaeAcc]
    | succ k2 =>
      have hlast : (0 :: (List.range (k2 + 1)).map (gaeAcc g r)).getLastD 0
          = gaeAcc g r k2 := by
        rw [List.getLastD_cons]
        rw [List.range_succ, List.map_append]
        exact List.getLastD_concat _ _ _
      rw [List.foldl_cons, List.foldl_nil, hlast]
      rw [List.range_succ, List.map_append]
      simp [gaeAcc]

theorem gaeLoop_eq (delta : List ℚ) (r : ℚ) (n : Nat) :
    gaeLoop delta r n
      = 0 :: (List.range n).map (gaeAcc (fun i => delta.getD (n - 1 - i) 0) r) := by
  unfold gaeLoop
  exact foldl_gaeStep _ _ _

theorem gaeLoop_output (delta : List ℚ) (r : ℚ) (n : Nat) :
    (gaeLoop delta r n).reverse.dropLast
      = ((List.range n).map (gaeAcc (fun i => delta.getD (n - 1 - i) 0) r)).reverse := by
  rw [gaeLoop_eq, List.reverse_cons, List.dropLast_concat]

theorem getD_reverse_range_map {β : Type} (f : Nat → β) (n i : Nat) (d : β)
    (h : i < n) :
    (((List.range n).map f).reverse).getD i d = f (n - 1 - i) := by
  rw [List.getD_eq_getElem?_getD]
  rw [List.getElem?_reverse (by simpa using h)]
  rw [List.length_map, List.length_range]
  rw [List.getElem?_map, List.getElem?_range (by omega)]
  rfl

theorem GAE_eq_some {S : Type} (critic : List S → List ℚ) (state_batch : List S)
    (reward : List ℚ) (gamma lamb : ℚ)
    (hlen : (reward.length : Int) = (state_batch.length : Int) - 1) :
    GeneralizedAdvantageEstimator critic state_batch reward gamma lamb =
      some (gaeOutput (tdDelta reward (critic state_batch) gamma) (gamma * lamb)
        (state_batch.length - 1)) := by
  unfold GeneralizedAdvantageEstimator
  rw [if_pos hlen, gaeLoop_output]
  rfl

theorem GAE_eq_none {S : Type} (critic : List S → List ℚ) (state_batch : List S)
    (reward : List ℚ) (gamma lamb : ℚ)
    (hlen : (reward.length : Int) ≠ (state_batch.length : Int) - 1) :
    GeneralizedAdvantageEstimator critic state_batch reward gamma lamb = none := by
  unfold GeneralizedAdvantageEstimator
  rw [if_neg hlen]

theorem gaeOutput_length (delta : List ℚ) (r : ℚ) (n : Nat) :
    (gaeOutput delta r n).length = n := by
  simp [gaeOutput]

theorem gaeOutput_getD (delta : List ℚ) (r : ℚ) (n i : Nat) (h : i < n) :
    (gaeOutput delta r n).getD i 0 =
      gaeAcc (fun j => delta.getD (n - 1 - j) 0) r (n - 1 - i) := by
  unfold gaeOutput
  exact getD_reverse_range_map _ _ _ _ h

theorem gaeOutput_last (delta : List ℚ) (r : ℚ) (n : Nat) (h : 1 ≤ n) :
    (gaeOutput delta r n).getD (n - 1) 0 = delta.getD (n - 1) 0 := by
  rw [gaeOutput_getD _ _ _ _ (by omega)]
  have h0 : n - 1 - (n - 1) = 0 := by omega
  rw [h0]
  simp [gaeAcc]

theorem gaeOutput_step (delta : List ℚ) (r : ℚ) (n i : Nat) (h : i + 1 < n) :
    (gaeOutput delta r n).getD i 0 =
      delta.getD i 0 + r * (gaeOutput delta r n).getD (i + 1) 0 := by
  rw [gaeOutput_getD _ _ _ _ (by omega), gaeOutput_getD _ _ _ _ h]
  have h1 : n - 1 - i = (n - 1 - (i + 1)) + 1 := by omega
  rw [h1]
  show gaeAcc _ r (n - 1 - (i + 1)) * r +
      (fun j => delta.getD (n - 1 - j) 0) ((n - 1 - (i + 1)) + 1) = _
  have h2 : n - 1 - ((n - 1 - (i + 1)) + 1) = i := by omega
  simp only [h2]
  ring

theorem gaeAcc_r_zero (g : Nat → ℚ) (i : Nat) : gaeAcc g 0 i = g i := by
  induction i with
  | zero => simp [gaeAcc]
  | succ k ih => simp [gaeAcc]

theorem gaeOutput_r_zero (delta : List ℚ) (n i : Nat) (h : i < n) :
    (gaeOutput delta 0 n).getD i 0 = delta.getD i 0 := by
  rw [gaeOutput_getD _ _ _ _ h, gaeAcc_r_zero]
  have h2 : n - 1 - (n - 1 - i) = i := by omega
  rw [h2]

theorem gaeAcc_r_one (g : Nat → ℚ) (i : Nat) :
    gaeAcc g 1 i = ∑ j ∈ Finset.range (i + 1), g j := by
  induction i with
  | zero => simp [gaeAcc]
  | succ k ih =>
    rw [Finset.sum_range_succ, ← ih]
    simp [gaeAcc]

theorem gaeOutput_r_one (delta : List ℚ) (n i : Nat) (h : i < n) :
    (gaeOutput delta 1 n).getD i 0 = ∑ k ∈ Finset.Ico i n, delta.getD k 0 := by
  rw [gaeOutput_getD _ _ _ _ h, gaeAcc_r_one]
  have hm : n - 1 - i + 1 = n - i := by omega
  rw [hm]
  rw [Finset.sum_Ico_eq_sum_range]
  conv_rhs => rw [← Finset.sum_range_reflect]
  apply Finset.sum_congr rfl
  intro j hj
  have hj2 : j < n - i := Finset.mem_range.mp hj
  congr 1
  omega

end GAELemmas

section HeapLemmas

variable {α : Type} [Zero α]

theorem naive_pad_st_cells_length (h : NpHeap α) (xi shift : Nat) :
    ((naive_pad_st h xi shift).1).cells.length = h.cells.length + 1 := by
  simp [naive_pad_st, heapAlloc, heapWrite]

theorem naive_pad_st_frame (h : NpHeap α) (xi shift k : Nat)
    (hk : k < h.cells.length) :
    heapRead (naive_pad_st h xi shift).1 k = heapRead h k := by
  unfold naive_pad_st heapAlloc heapWrite heapRead
  simp only
  rw [List.getD_eq_getElem?_getD, List.getD_eq_getElem?_getD]
  rw [List.getElem?_set_ne (by omega)]
  rw [List.getElem?_append_left hk]
  exact (List.getD_eq_getElem?_getD _ _ _).symm

theorem getD_append_self {β : Type} (l : List β) (v d : β) :
    (l ++ [v]).getD l.length d = v := by
  rw [List.getD_eq_getElem?_getD]
  rw [List.getElem?_append_right (Nat.le_refl _)]
  simp

theorem naive_pad_st_result (h : NpHeap α) (xi shift : Nat) :
    heapRead (naive_pad_st h xi shift).1 (naive_pad_st h xi shift).2 =
      naive_pad (heapRead h xi) shift := by
  unfold naive_pad_st heapAlloc heapWrite heapRead naive_pad
  simp only
  rw [List.getD_eq_getElem?_getD]
  rw [List.getElem?_set_self (by simp)]
  rw [Option.getD_some]
  rw [getD_append_self]

theorem windowing_fold_frame (xi : Nat) (L : List Nat) :
    ∀ (h : NpHeap α) (acc : List Nat) (k : Nat), k < h.cells.length →
      heapRead
        (L.foldl
          (fun acc i =>
            let st := naive_pad_st acc.1 xi i
            (st.1, acc.2 ++ [st.2]))
          (h, acc)).1 k = heapRead h k := by
  induction L with
  | nil =>
    intro h acc k hk
    rfl
  | cons i L ih =>
    intro h acc k hk
    rw [List.foldl_cons]
    have hstep := naive_pad_st_frame h xi i k hk
    have hlen := naive_pad_st_cells_length h xi i
    have hrest := ih (naive_pad_st h xi i).1 (acc ++ [(naive_pad_st h xi i).2]) k
      (by omega)
    exact hrest.trans hstep

end HeapLemmas

section Claims

/-- C1: for every states sequence of length `n+1` (`n ≥ 1`), rewards of
length `n`, scalars `gamma` and `lamb`, and value estimates obtained from
the evaluator, `GeneralizedAdvantageEstimator` returns, in ascending time
order, the sequence `A` with `A[n-1] = delta[n-1]` and
`A[i] = delta[i] + gamma*lamb*A[i+1]`, where
`delta[i] = rewards[i] + gamma*value[i+1] - value[i]`. -/
theorem gae_spec_recurrence {S : Type} (critic : List S → List ℚ)
    (states : List S) (reward : List ℚ) (gamma lamb : ℚ) (n : Nat)
    (hn : 1 ≤ n) (hs : states.length = n + 1) (hr : reward.length = n)
    (hv : (critic states).length = n + 1) :
    ∃ A : List ℚ,
      GeneralizedAdvantageEstimator critic states reward gamma lamb = some A ∧
      A.length = n ∧
      A.getD (n - 1) 0 =
        reward.getD (n - 1) 0 + gamma * (critic states).getD n 0
          - (critic states).getD (n - 1) 0 ∧
      ∀ i, i + 1 < n →
        A.getD i 0 =
          (reward.getD i 0 + gamma * (critic states).getD (i + 1) 0
            - (critic states).getD i 0)
          + gamma * lamb * A.getD (i + 1) 0 := by
  have hlen : (reward.length : Int) = (states.length : Int) - 1 := by
    rw [hs, hr]
    push_cast
    ring
  have hn1 : states.length - 1 = n := by omega
  refine ⟨gaeOutput (tdDelta reward (critic states) gamma) (gamma * lamb)
    (states.length - 1), GAE_eq_some critic states reward gamma lamb hlen, ?_, ?_, ?_⟩
  · rw [gaeOutput_length, hn1]
  · rw [hn1, gaeOutput_last _ _ _ hn]
    rw [tdDelta_getD _ _ _ _ (by omega) (by omega)]
    have : n - 1 + 1 = n := by omega
    rw [this]
  · intro i hi
    rw [hn1, gaeOutput_step _ _ _ _ hi]
    rw [tdDelta_getD _ _ _ _ (by omega) (by omega)]

/-- C4: `GeneralizedAdvantageEstimator` fails its assertion (modelled as
returning `none`) exactly when the rewards length differs from the states
length minus one (integer subtraction, as in Python); when it fails it
produces no result, and the failure does not depend on the evaluator at
all (no evaluator call is observable). -/
theorem gae_assert_iff {S : Type} (critic critic2 : List S → List ℚ)
    (states : List S) (reward : List ℚ) (gamma lamb : ℚ) :
    (GeneralizedAdvantageEstimator critic states reward gamma lamb = none ↔
      (reward.length : Int) ≠ (states.length : Int) - 1) ∧
    (GeneralizedAdvantageEstimator critic states reward gamma lamb = none →
      GeneralizedAdvantageEstimator critic2 states reward gamma lamb = none) := by
  by_cases hc : (reward.length : Int) = (states.length : Int) - 1
  · constructor
    · rw [GAE_eq_some critic states reward gamma lamb hc]
      constructor
      · intro contra
        exact absurd contra (by simp)
      · intro hne
        exact absurd hc hne
    · intro hnone
      rw [GAE_eq_some critic states reward gamma lamb hc] at hnone
      exact absurd hnone (by simp)
  · exact ⟨⟨fun _ => hc, fun _ => GAE_eq_none critic states reward gamma lamb hc⟩,
      fun _ => GAE_eq_none critic2 states reward gamma lamb hc⟩

/-- C5: with `lamb = 0` the output of `GeneralizedAdvantageEstimator` is
exactly the TD-residual sequence
`delta[i] = rewards[i] + gamma*value[i+1] - value[i]`. -/
theorem gae_lamb_zero_td {S : Type} (critic : List S → List ℚ)
    (states : List S) (reward : List ℚ) (gamma : ℚ) (n : Nat)
    (hn : 1 ≤ n) (hs : states.length = n + 1) (hr : reward.length = n)
    (hv : (critic states).length = n + 1) :
    ∃ A : List ℚ,
      GeneralizedAdvantageEstimator critic states reward gamma 0 = some A ∧
      A.length = n ∧
      ∀ i, i < n →
        A.getD i 0 =
          reward.getD i 0 + gamma * (critic states).getD (i + 1) 0
            - (critic states).getD i 0 := by
  have hlen : (reward.length : Int) = (states.length : Int) - 1 := by
    rw [hs, hr]
    push_cast
    ring
  have hn1 : states.length - 1 = n := by omega
  refine ⟨gaeOutput (tdDelta reward (critic states) gamma) (gamma * 0)
    (states.length - 1), GAE_eq_some critic states reward gamma 0 hlen, ?_, ?_⟩
  · rw [gaeOutput_length, hn1]
  · intro i hi
    rw [hn1, mul_zero, gaeOutput_r_zero _ _ _ hi]
    rw [tdDelta_getD _ _ _ _ (by omega) (by omega)]

/-- C6: with `gamma = 1` and `lamb = 1` the output of
`GeneralizedAdvantageEstimator` satisfies `A[i] = sum_{k=i}^{n-1} delta[k]`,
the plain backward cumulative sum of the TD residuals. -/
theorem gae_gamma_lamb_one_cumsum {S : Type} (critic : List S → List ℚ)
    (states : List S) (reward : List ℚ) (n : Nat)
    (hs : states.length = n + 1) (hr : reward.length = n)
    (hv : (critic states).length = n + 1) :
    ∃ A : List ℚ,
      GeneralizedAdvantageEstimator critic states reward 1 1 = some A ∧
      A.length = n ∧
      ∀ i, i < n →
        A.getD i 0 =
          ∑ k ∈ Finset.Ico i n,
            (reward.getD k 0 + (critic states).getD (k + 1) 0
              - (critic states).getD k 0) := by
  have hlen : (reward.length : Int) = (states.length : Int) - 1 := by
    rw [hs, hr]
    push_cast
    ring
  have hn1 : states.length - 1 = n := by omega
  refine ⟨gaeOutput (tdDelta reward (critic states) 1) ((1 : ℚ) * 1)
    (states.length - 1), GAE_eq_some critic states reward 1 1 hlen, ?_, ?_⟩
  · rw [gaeOutput_length, hn1]
  · intro i hi
    rw [hn1, one_mul, gaeOutput_r_one _ _ _ hi]
    apply Finset.sum_congr rfl
    intro k hk
    have hk2 := Finset.mem_Ico.mp hk
    rw [tdDelta_getD _ _ _ _ (by omega) (by omega)]
    rw [one_mul]

/-- C7: whenever the shape precondition `len(rewards) == len(states) - 1`
holds (the empty rewards case included) and the evaluator yields one value
per state, `GeneralizedAdvantageEstimator` returns a sequence of exactly
`len(rewards)` entries. -/
theorem gae_length_eq_rewards {S : Type} (critic : List S → List ℚ)
    (states : List S) (reward : List ℚ) (gamma lamb : ℚ)
    (hlen : (reward.length : Int) = (states.length : Int) - 1)
    (hv : (critic states).length = states.length) :
    ∃ A : List ℚ,
      GeneralizedAdvantageEstimator critic states reward gamma lamb = some A ∧
      A.length = reward.length := by
  refine ⟨gaeOutput (tdDelta reward (critic states) gamma) (gamma * lamb)
    (states.length - 1), GAE_eq_some critic states reward gamma lamb hlen, ?_⟩
  rw [gaeOutput_length]
  omega

/-- C3: for `1 ≤ W ≤ T`, `state_windowing` returns `T` entries; entry `t`
stacks `W` slices from most-lagged to least-lagged, slice `j` being
`observations[t - (W-1-j)]` when that index is in range and a zero entry
otherwise. -/
theorem windowing_spec_correct {α : Type} [Zero α] (states : List α) (W : Nat)
    (hT : 1 ≤ states.length) (hW : 1 ≤ W) (hWT : W ≤ states.length) :
    (state_windowing states W).length = states.length ∧
    ∀ t, t < states.length →
      ((state_windowing states W).getD t []).length = W ∧
      ∀ j, j < W →
        ((state_windowing states W).getD t []).getD j 0 =
          if W - 1 - j ≤ t then states.getD (t - (W - 1 - j)) 0 else 0 := by
  refine ⟨state_windowing_length states W, fun t ht =>
    ⟨state_windowing_entry_length states W t ht, fun j hj => ?_⟩⟩
  rw [windowing_getD]
  by_cases hlag : W - 1 - j ≤ t
  · rw [if_pos ⟨ht, hj, hlag⟩, if_pos hlag]
  · rw [if_neg (by tauto), if_neg hlag]

/-- C8: with `window_len = 1` each entry of `state_windowing` is the
single-slice stack of the observation at that time, and extracting the
last (only) slice of each stack recovers the original sequence. -/
theorem windowing_one_round_trip {α : Type} [Zero α] (states : List α)
    (hne : states ≠ []) :
    (state_windowing states 1).length = states.length ∧
    (∀ t, t < states.length →
      (state_windowing states 1).getD t [] = [states.getD t 0]) ∧
    (state_windowing states 1).map (fun e => e.getLastD 0) = states := by
  have hentry : ∀ t, t < states.length →
      (state_windowing states 1).getD t [] = [states.getD t 0] := by
    intro t ht
    rw [state_windowing_entry states 1 t ht]
    have h1 : (List.range 1).reverse = [0] := rfl
    rw [h1, List.map_singleton]
    rw [naive_pad_getD states 0 t ht]
    rw [if_neg (Nat.not_lt_zero t), Nat.sub_zero]
  refine ⟨state_windowing_length states 1, hentry, ?_⟩
  apply List.ext_getElem
  · rw [List.length_map, state_windowing_length]
  · intro i h1 h2
    rw [List.getElem_map]
    have hi : i < states.length := by
      rw [List.length_map, state_windowing_length] at h1
      exact h1
    have hb : i < (state_windowing states 1).length := by
      rw [state_windowing_length]
      exact hi
    have he : (state_windowing states 1)[i] = [states.getD i 0] := by
      rw [← List.getD_eq_getElem _ [] hb]
      exact hentry i hi
    rw [he]
    show states.getD i 0 = states[i]
    exact List.getD_eq_getElem _ _ hi

/-- C2 counterexample: at the explicit concrete input
`observations = [1, 2, 3]` (`T = 3`, every observation non-zero) and
`window_len = 5` (so `window_len - 1 = 4 ≥ T`, the claim's regime), the
complete output of `state_windowing` contains no non-zero entry copied
from a future observation: the slices of lag offsets `4` and `3` (`≥ T`)
are entirely zero-filled — the rotation does wrap modulo `T`, but
`y[0:shift, ] = 0` zero-fills all `T` rows — and every remaining entry is
a past observation, contradicting the claimed data leak (the general
`windowing_getD` shows the same for every input). -/
theorem windowing_no_leak_example :
    state_windowing [(1 : ℚ), 2, 3] 5 =
      [[0, 0, 0, 0, 1], [0, 0, 0, 1, 2], [0, 0, 1, 2, 3]] := by
  decide

/-- C2 amended: in the regime `window_len - 1 ≥ T` the circular rotation
does wrap modulo `T`, but the zeroing step zero-fills the entire `T`-row
array for shift amounts `≥ T`, so every slice whose lag offset is `≥ T`
is entirely zero and no data leaks from the future. -/
theorem windowing_wrap_zeroed (states : List ℚ) (W t j : Nat)
    (hT : 1 ≤ states.length) (hreg : states.length ≤ W - 1)
    (ht : t < states.length) (hj : j < W)
    (hoff : states.length ≤ W - 1 - j) :
    ((state_windowing states W).getD t []).getD j 0 = 0 := by
  rw [windowing_getD]
  rw [if_neg]
  intro hcond
  omega

/-- C9: every slice of the output of `state_windowing` whose lag offset
`W - 1 - j` is at least `T` is entirely zero-filled: the zeroing step
clamps to the array length and erases all `T` rows, so no wrapped-around
future data remains in such a slice. -/
theorem windowing_large_offset_zero {α : Type} [Zero α] (states : List α)
    (W j t : Nat) (hT : 1 ≤ states.length) (hj : j < W)
    (hoff : states.length ≤ W - 1 - j) (ht : t < states.length) :
    ((state_windowing states W).getD t []).getD j 0 = 0 := by
  rw [windowing_getD]
  rw [if_neg]
  intro hcond
  omega

/-- C10: `state_windowing` never mutates its input.  In the explicit-heap
rendering, where `np.roll` allocates a fresh cell and the zeroing writes
only to that fresh cell, the input cell is unchanged after the call. -/
theorem windowing_no_input_mutation {α : Type} [Zero α] (h : NpHeap α)
    (xi W : Nat) (hxi : xi < h.cells.length) :
    heapRead (state_windowing_st h xi W).1 xi = heapRead h xi := by
  unfold state_windowing_st
  exact windowing_fold_frame xi _ h [] xi hxi

/-- Witness for C1 at the spec scenario: three states, rewards `[1, 2]`,
a critic that always returns `0`, `gamma = 9/10`, `lamb = 1/2`. -/
theorem gae_spec_recurrence_witness :
    (1 ≤ 2) ∧ ([(0 : ℚ), 0, 0].length = 2 + 1) ∧ ([(1 : ℚ), 2].length = 2) ∧
    (((fun (l : List ℚ) => l.map (fun _ => (0 : ℚ))) [(0 : ℚ), 0, 0]).length = 2 + 1) ∧
    (∃ A : List ℚ,
      GeneralizedAdvantageEstimator (fun (l : List ℚ) => l.map (fun _ => (0 : ℚ)))
        [(0 : ℚ), 0, 0] [(1 : ℚ), 2] (9 / 10) (1 / 2) = some A ∧
      A.length = 2) := by
  refine ⟨by decide, by decide, by decide, by decide, ?_⟩
  obtain ⟨A, hA1, hA2, _, _⟩ := gae_spec_recurrence
    (fun (l : List ℚ) => l.map (fun _ => (0 : ℚ))) [(0 : ℚ), 0, 0] [(1 : ℚ), 2]
    (9 / 10) (1 / 2) 2 (by decide) (by decide) (by decide) (by decide)
  exact ⟨A, hA1, hA2⟩

/-- Witness for C4: two rewards against a single state violate the shape
invariant, and the call yields no result. -/
theorem gae_assert_iff_witness :
    ((([(1 : ℚ), 2]).length : Int) ≠ (([(0 : ℚ)]).length : Int) - 1) ∧
    GeneralizedAdvantageEstimator (fun (l : List ℚ) => l.map (fun _ => (0 : ℚ)))
      [(0 : ℚ)] [(1 : ℚ), 2] 1 1 = none := by
  refine ⟨by decide, ?_⟩
  exact (gae_assert_iff (fun (l : List ℚ) => l.map (fun _ => (0 : ℚ)))
    (fun (l : List ℚ) => l.map (fun _ => (0 : ℚ))) [(0 : ℚ)] [(1 : ℚ), 2] 1 1).1.mpr
    (by decide)

/-- Witness for C5 at `lamb = 0` on the same concrete scenario as C1. -/
theorem gae_lamb_zero_td_witness :
    (1 ≤ 2) ∧ ([(0 : ℚ), 0, 0].length = 2 + 1) ∧ ([(1 : ℚ), 2].length = 2) ∧
    (((fun (l : List ℚ) => l.map (fun _ => (0 : ℚ))) [(0 : ℚ), 0, 0]).length = 2 + 1) ∧
    (∃ A : List ℚ,
      GeneralizedAdvantageEstimator (fun (l : List ℚ) => l.map (fun _ => (0 : ℚ)))
        [(0 : ℚ), 0, 0] [(1 : ℚ), 2] (9 / 10) 0 = some A ∧
      A.length = 2) := by
  refine ⟨by decide, by decide, by decide, by decide, ?_⟩
  obtain ⟨A, hA1, hA2, _⟩ := gae_lamb_zero_td
    (fun (l : List ℚ) => l.map (fun _ => (0 : ℚ))) [(0 : ℚ), 0, 0] [(1 : ℚ), 2]
    (9 / 10) 2 (by decide) (by decide) (by decide) (by decide)
  exact ⟨A, hA1, hA2⟩

/-- Witness for C6 at `gamma = lamb = 1` on the same concrete scenario. -/
theorem gae_gamma_lamb_one_cumsum_witness :
    ([(0 : ℚ), 0, 0].length = 2 + 1) ∧ ([(1 : ℚ), 2].length = 2) ∧
    (((fun (l : List ℚ) => l.map (fun _ => (0 : ℚ))) [(0 : ℚ), 0, 0]).length = 2 + 1) ∧
    (∃ A : List ℚ,
      GeneralizedAdvantageEstimator (fun (l : List ℚ) => l.map (fun _ => (0 : ℚ)))
        [(0 : ℚ), 0, 0] [(1 : ℚ), 2] 1 1 = some A ∧
      A.length = 2) := by
  refine ⟨by decide, by decide, by decide, ?_⟩
  obtain ⟨A, hA1, hA2, _⟩ := gae_gamma_lamb_one_cumsum
    (fun (l : List ℚ) => l.map (fun _ => (0 : ℚ))) [(0 : ℚ), 0, 0] [(1 : ℚ), 2]
    2 (by decide) (by decide) (by decide)
  exact ⟨A, hA1, hA2⟩

/-- Witness for C7 at the degenerate trajectory: one state, no rewards. -/
theorem gae_length_eq_rewards_witness :
    ((([] : List ℚ).length : Int) = (([(0 : ℚ)]).length : Int) - 1) ∧
    (((fun (l : List ℚ) => l.map (fun _ => (0 : ℚ))) [(0 : ℚ)]).length =
      ([(0 : ℚ)]).length) ∧
    (∃ A : List ℚ,
      GeneralizedAdvantageEstimator (fun (l : List ℚ) => l.map (fun _ => (0 : ℚ)))
        [(0 : ℚ)] ([] : List ℚ) 1 1 = some A ∧
      A.length = ([] : List ℚ).length) := by
  exact ⟨by decide, by decide, gae_length_eq_rewards
    (fun (l : List ℚ) => l.map (fun _ => (0 : ℚ))) [(0 : ℚ)] ([] : List ℚ) 1 1
    (by decide) (by decide)⟩

/-- Witness for C3 on `observations = [1, 2, 3]`, `window_len = 2`,
entry `t = 1`, slice `j = 0` (the lag-1 slice). -/
theorem windowing_spec_correct_witness :
    (1 ≤ ([(1 : ℚ), 2, 3]).length) ∧ (1 ≤ 2) ∧ (2 ≤ ([(1 : ℚ), 2, 3]).length) ∧
    ((state_windowing [(1 : ℚ), 2, 3] 2).getD 1 []).getD 0 0 =
      (if 2 - 1 - 0 ≤ 1 then ([(1 : ℚ), 2, 3]).getD (1 - (2 - 1 - 0)) 0 else 0) := by
  exact ⟨by decide, by decide, by decide,
    ((windowing_spec_correct [(1 : ℚ), 2, 3] 2 (by decide) (by decide)
      (by decide)).2 1 (by decide)).2 0 (by decide)⟩

/-- Witness for C8 on `observations = [5, 7]`: the round trip through
single-slice windowing recovers the input. -/
theorem windowing_one_round_trip_witness :
    ([(5 : ℚ), 7] ≠ ([] : List ℚ)) ∧
    (state_windowing [(5 : ℚ), 7] 1).map (fun e => e.getLastD 0) = [(5 : ℚ), 7] := by
  exact ⟨by decide, (windowing_one_round_trip [(5 : ℚ), 7] (by decide)).2.2⟩

/-- Witness for the amended C2: a single observation with `window_len = 3`
(`window_len - 1 = 2 ≥ T = 1`); the most-lagged slice, of offset `2 ≥ T`,
reads back as zero. -/
theorem windowing_wrap_zeroed_witness :
    (1 ≤ ([(1 : ℚ)]).length) ∧ (([(1 : ℚ)]).length ≤ 3 - 1) ∧
    (0 < ([(1 : ℚ)]).length) ∧ (0 < 3) ∧ (([(1 : ℚ)]).length ≤ 3 - 1 - 0) ∧
    ((state_windowing [(1 : ℚ)] 3).getD 0 []).getD 0 0 = 0 := by
  exact ⟨by decide, by decide, by decide, by decide, by decide,
    windowing_wrap_zeroed [(1 : ℚ)] 3 0 0 (by decide) (by decide) (by decide)
      (by decide) (by decide)⟩

/-- Witness for C9 on `observations = [1, 2]`, `window_len = 4`: slice
`j = 0` has lag offset `3 ≥ T = 2` and is zero at `t = 1`. -/
theorem windowing_large_offset_zero_witness :
    (1 ≤ ([(1 : ℚ), 2]).length) ∧ (0 < 4) ∧ (([(1 : ℚ), 2]).length ≤ 4 - 1 - 0) ∧
    (1 < ([(1 : ℚ), 2]).length) ∧
    ((state_windowing [(1 : ℚ), 2] 4).getD 1 []).getD 0 0 = 0 := by
  exact ⟨by decide, by decide, by decide, by decide,
    windowing_large_offset_zero [(1 : ℚ), 2] 4 0 1 (by decide) (by decide)
      (by decide) (by decide)⟩

/-- Witness for C10 on a one-cell heap holding `[1, 2, 3]`, windowed with
`window_len = 5`: the input cell is unchanged. -/
theorem windowing_no_input_mutation_witness :
    (0 < (NpHeap.mk [[(1 : ℚ), 2, 3]]).cells.length) ∧
    heapRead (state_windowing_st (NpHeap.mk [[(1 : ℚ), 2, 3]]) 0 5).1 0 =
      heapRead (NpHeap.mk [[(1 : ℚ), 2, 3]]) 0 := by
  exact ⟨by decide,
    windowing_no_input_mutation (NpHeap.mk [[(1 : ℚ), 2, 3]]) 0 5 (by decide)⟩

end Claims

end KerasRL
